import Mathlib

/-!
Shallow embedding of the yams in-process message queue core.

The repository implements a JMS-style point-to-point messaging facade.  The
producer `JsQueueSender.send` (src/src/js-queue-sender.ts) creates a fresh
deferred, offers the message to the destination's consumer via the
`onMessage` delivery hook, enqueues the message on the queue when the hook
reports "not handled", and returns the deferred's promise.  The queue /
deferred / consumer engine itself (jsms-queue, jsms-deferred, message
consumer, message service) is not part of the sources available here, so
those parts are modelled from the specification (sections 3, 4.1, 4.2 and
4.4 of the design document); the places where this happens are marked in
the doc comments.

States are fully executable: deferred results live in a store indexed by
`Nat` identifiers, and every operation is a pure function on `QueueState`.
-/

namespace Yams

/-- JS object payloads are modelled as association lists of string fields;
the empty object literal is the empty list. -/
abbrev Body := List (String × String)

/-- Empty object literal, the default message body. -/
def emptyBody : Body := []

/-- Modelled from the spec: the Message value (section 3) of the missing
jsms-message module — destination name, body, optional correlation id and
optional absolute expiration time (`none` means "never expires"). -/
structure JsmsMessage where
  destinationName : String
  body : Body
  correlationId : Option String
  expirationTime : Option Nat
  deriving DecidableEq

/-- Values a deferred result can settle to: either a whole message (waiter
side) or a plain object (a consumer handler's explicit response). -/
inductive JsValue where
  | msg (m : JsmsMessage)
  | obj (b : Body)
  deriving DecidableEq

/-- Modelled from the spec: the state of a deferred result (section 4.1 of
the design document, missing jsms-deferred module): pending, resolved with
a value, or rejected with an error. -/
inductive DeferredState where
  | pending
  | resolved (value : JsValue)
  | rejected (error : String)
  deriving DecidableEq

/-- Modelled from the spec: `resolve(value)` transitions `pending` to
`resolved value`; it is a no-op if the deferred is already settled. -/
def resolveD (d : DeferredState) (v : JsValue) : DeferredState :=
  match d with
  | DeferredState.pending => DeferredState.resolved v
  | other => other

/-- Modelled from the spec: `reject(error)` transitions `pending` to
`rejected error`; it is a no-op if the deferred is already settled. -/
def rejectD (d : DeferredState) (e : String) : DeferredState :=
  match d with
  | DeferredState.pending => DeferredState.rejected e
  | other => other

/-- Symbolic description of an application handler attached to a `receive`:
it either resolves with an explicit response object, does nothing explicit,
or throws an error. -/
inductive HandlerSpec where
  | resolves (v : Body)
  | doesNothing
  | throws (e : String)
  deriving DecidableEq

/-- Whole engine state: a store of deferred results indexed by `Nat`
(identifiers below `nextId` are allocated), the queue's two FIFO buffers,
a log of delivery-hook invocations (for stating "the hook was invoked
exactly once"), and the current clock. -/
structure QueueState where
  nextId : Nat
  deferreds : Nat → DeferredState
  pendingMessages : List (Nat × JsmsMessage)
  pendingWaiters : List (Nat × HandlerSpec)
  hookLog : List JsmsMessage
  now : Nat

/-- Fresh engine state: no allocated deferreds, empty buffers, clock 0. -/
def initialState : QueueState :=
  { nextId := 0
    deferreds := fun _ => DeferredState.pending
    pendingMessages := []
    pendingWaiters := []
    hookLog := []
    now := 0 }

/-- Point update of the deferred store. -/
def storeSet (ds : Nat → DeferredState) (i : Nat) (v : DeferredState) :
    Nat → DeferredState :=
  fun j => if j = i then v else ds j

/-- Resolve the deferred with identifier `i` (no-op when already settled). -/
def storeResolve (ds : Nat → DeferredState) (i : Nat) (v : JsValue) :
    Nat → DeferredState :=
  storeSet ds i (resolveD (ds i) v)

/-- Reject the deferred with identifier `i` (no-op when already settled). -/
def storeReject (ds : Nat → DeferredState) (i : Nat) (e : String) :
    Nat → DeferredState :=
  storeSet ds i (rejectD (ds i) e)

/-- Modelled from the spec: completion rule of the delivery hook (section
4.2): a handler that resolves with `v` settles the producer's deferred to
`v`; one that yields nothing explicit settles it to the message itself; a
throwing handler rejects it with the thrown error. -/
def runHandler (ds : Nat → DeferredState) (producerDid : Nat)
    (h : HandlerSpec) (m : JsmsMessage) : Nat → DeferredState :=
  match h with
  | HandlerSpec.resolves v => storeResolve ds producerDid (JsValue.obj v)
  | HandlerSpec.doesNothing => storeResolve ds producerDid (JsValue.msg m)
  | HandlerSpec.throws e => storeReject ds producerDid e

/-- Final state of the producer's deferred dictated by the handler,
per the completion/throw rule of section 4.2. -/
def handlerOutcome (h : HandlerSpec) (m : JsmsMessage) : DeferredState :=
  match h with
  | HandlerSpec.resolves v => DeferredState.resolved (JsValue.obj v)
  | HandlerSpec.doesNothing => DeferredState.resolved (JsValue.msg m)
  | HandlerSpec.throws e => DeferredState.rejected e

/-- Modelled from the spec: the consumer's delivery hook (section 4.4,
missing queue-receiver module).  Invocation is recorded on `hookLog`.  When
a waiter is ready, the oldest waiter is popped, its deferred is resolved
with the message, the waiter's handler runs and settles the producer's
deferred per the completion/throw rule, and the hook reports `true`
(handled).  Otherwise it reports `false` so the caller falls back to
buffering. -/
def onMessage (s : QueueState) (m : JsmsMessage) (producerDid : Nat) :
    Bool × QueueState :=
  let s0 := { s with hookLog := s.hookLog ++ [m] }
  match s0.pendingWaiters with
  | [] => (false, s0)
  | (wid, hh) :: rest =>
    let ds1 := storeResolve s0.deferreds wid (JsValue.msg m)
    let ds2 := runHandler ds1 producerDid hh m
    (true, { s0 with deferreds := ds2, pendingWaiters := rest })

/-- Embedding of `JsQueueSender.send` (src/src/js-queue-sender.ts): create
a fresh deferred, offer the message to the consumer's `onMessage` hook, and
when the hook reports "not handled" enqueue the message on the queue
(the missing `JsmsQueue.enqueue` is modelled from section 4.2 of the spec:
it buffers the message together with the producer's deferred).  The fresh
deferred's identifier is returned to the producer. -/
def send (s : QueueState) (m : JsmsMessage) : Nat × QueueState :=
  let did := s.nextId
  let s1 := { s with nextId := s.nextId + 1 }
  let r := onMessage s1 m did
  if r.1 then (did, r.2)
  else (did, { r.2 with pendingMessages := r.2.pendingMessages ++ [(did, m)] })

/-- Modelled from the spec: a message is expired when its absolute
expiration time has passed (strictly before the current instant);
messages without expiration never expire. -/
def isExpired (m : JsmsMessage) (now : Nat) : Bool :=
  match m.expirationTime with
  | none => false
  | some t => t < now

/-- Modelled from the spec: the lazy expiration scan of `registerWaiter`
(section 4.2): skip and discard expired messages from the front of the
buffer, stopping at the first live one. -/
def dropExpired (pms : List (Nat × JsmsMessage)) (now : Nat) :
    List (Nat × JsmsMessage) :=
  match pms with
  | [] => []
  | (did, m) :: rest =>
    if isExpired m now then dropExpired rest now else (did, m) :: rest

/-- Modelled from the spec: `registerWaiter` (section 4.2, missing
queue/consumer modules), i.e. the engine side of `receive()`: allocate a
fresh deferred for this receive; scan `pendingMessages` from the front
discarding expired ones; if a live buffered message is found, remove it,
resolve the fresh deferred with it and run the attached handler to settle
the buffered producer's deferred; otherwise register the fresh deferred as
a waiter.  Returns the fresh deferred's identifier. -/
def receive (s : QueueState) (h : HandlerSpec) : Nat × QueueState :=
  let wid := s.nextId
  let s1 := { s with nextId := s.nextId + 1 }
  match dropExpired s1.pendingMessages s1.now with
  | (did, m) :: rest =>
    let ds1 := storeResolve s1.deferreds wid (JsValue.msg m)
    let ds2 := runHandler ds1 did h m
    (wid, { s1 with deferreds := ds2, pendingMessages := rest })
  | [] =>
    (wid, { s1 with pendingMessages := [],
                    pendingWaiters := s1.pendingWaiters ++ [(wid, h)] })

/-- Let time pass: advances the clock by `d`. -/
def advance (s : QueueState) (d : Nat) : QueueState :=
  { s with now := s.now + d }

/-- Modelled from the spec: `MessageService.createMessage` — the body
defaults to the empty object when unspecified, and a relative time to live
is converted to an absolute expiration instant. -/
def createMessage (destinationName : String) (body : Option Body)
    (timeToLive : Option Nat) (now : Nat) : JsmsMessage :=
  { destinationName := destinationName
    body := body.getD emptyBody
    correlationId := none
    expirationTime := timeToLive.map (fun ttl => now + ttl) }

/-- External operations on a queue, used to quantify over arbitrary
interleavings of sends, receives and passage of time. -/
inductive Op where
  | opSend (m : JsmsMessage)
  | opRecv (h : HandlerSpec)
  | opAdvance (d : Nat)

/-- One external operation applied to the state. -/
def step (s : QueueState) : Op → QueueState
  | Op.opSend m => (send s m).2
  | Op.opRecv h => (receive s h).2
  | Op.opAdvance d => advance s d

/-- Run a sequence of external operations. -/
def run (s : QueueState) (ops : List Op) : QueueState :=
  ops.foldl step s

/-- Pair each list element with successive identifiers starting at `n`. -/
def tagged (n : Nat) : List α → List (Nat × α)
  | [] => []
  | a :: rest => (n, a) :: tagged (n + 1) rest

/-- Send every message of the list, in order. -/
def sendAll (s : QueueState) (ms : List JsmsMessage) : QueueState :=
  ms.foldl (fun t m => (send t m).2) s

/-- Issue one receive per handler of the list, in order. -/
def receiveAll (s : QueueState) (hs : List HandlerSpec) : QueueState :=
  hs.foldl (fun t h => (receive t h).2) s

/-- Issue `n` receives in sequence, reading each receive's deferred state
immediately after the call. -/
def receiveValues (s : QueueState) : Nat → List DeferredState
  | 0 => []
  | Nat.succ n =>
    let r := receive s HandlerSpec.doesNothing
    r.2.deferreds r.1 :: receiveValues r.2 n

/-- One settlement attempt on a deferred result. -/
inductive SettleCall where
  | res (v : JsValue)
  | rej (e : String)
  deriving DecidableEq

/-- Apply a settlement attempt, following the resolve/reject contract. -/
def applyCall (d : DeferredState) : SettleCall → DeferredState
  | SettleCall.res v => resolveD d v
  | SettleCall.rej e => rejectD d e

theorem applyCall_of_settled {d : DeferredState}
    (hd : d ≠ DeferredState.pending) (c : SettleCall) : applyCall d c = d := by
  cases d with
  | pending => exact absurd rfl hd
  | resolved v => cases c <;> rfl
  | rejected e => cases c <;> rfl

theorem foldl_applyCall_of_settled (later : List SettleCall)
    (d : DeferredState) (hd : d ≠ DeferredState.pending) :
    List.foldl applyCall d later = d := by
  induction later with
  | nil => rfl
  | cons c rest ih => rw [List.foldl_cons, applyCall_of_settled hd c]; exact ih

/-- C7: a deferred result settles exactly once — the first resolve/reject
call transitions it out of `pending` and fixes its value or error, and
every subsequent settlement attempt is a no-op, so everyone awaiting it
observes the same final state. -/
theorem deferred_settles_exactly_once (c c' : SettleCall)
    (later : List SettleCall) (d : DeferredState) (v : JsValue) (e : String) :
    applyCall DeferredState.pending c ≠ DeferredState.pending
    ∧ List.foldl applyCall (applyCall DeferredState.pending c) later
        = applyCall DeferredState.pending c
    ∧ applyCall DeferredState.pending (SettleCall.res v)
        = DeferredState.resolved v
    ∧ applyCall DeferredState.pending (SettleCall.rej e)
        = DeferredState.rejected e
    ∧ (d ≠ DeferredState.pending → applyCall d c' = d) := by
  have hc : applyCall DeferredState.pending c ≠ DeferredState.pending := by
    cases c <;> simp [applyCall, resolveD, rejectD]
  exact ⟨hc, foldl_applyCall_of_settled later _ hc, rfl, rfl,
    fun hd => applyCall_of_settled hd c'⟩

theorem deferred_settles_exactly_once_witness :
    applyCall (DeferredState.rejected "boom")
        (SettleCall.res (JsValue.obj emptyBody))
      = DeferredState.rejected "boom" :=
  (deferred_settles_exactly_once (SettleCall.res (JsValue.obj emptyBody))
    (SettleCall.res (JsValue.obj emptyBody)) []
    (DeferredState.rejected "boom") (JsValue.obj emptyBody) "x").2.2.2.2
    (by decide)

theorem storeResolve_apply_ne {j i : Nat} (hne : j ≠ i)
    (ds : Nat → DeferredState) (v : JsValue) : storeResolve ds i v j = ds j := by
  simp [storeResolve, storeSet, hne]

theorem storeResolve_apply_self (ds : Nat → DeferredState) (i : Nat)
    (v : JsValue) : storeResolve ds i v i = resolveD (ds i) v := by
  simp [storeResolve, storeSet]

theorem runHandler_apply_ne {j did : Nat} (hne : j ≠ did)
    (ds : Nat → DeferredState) (h : HandlerSpec) (m : JsmsMessage) :
    runHandler ds did h m j = ds j := by
  cases h <;> simp [runHandler, storeResolve, storeReject, storeSet, hne]

theorem runHandler_apply_self (ds : Nat → DeferredState) (did : Nat)
    (h : HandlerSpec) (m : JsmsMessage)
    (hpend : ds did = DeferredState.pending) :
    runHandler ds did h m did = handlerOutcome h m := by
  cases h <;> simp [runHandler, handlerOutcome, storeResolve, storeReject,
    storeSet, hpend, resolveD, rejectD]

theorem resolveD_of_resolved {d : DeferredState} {w : JsValue}
    (hd : d = DeferredState.resolved w) (v : JsValue) :
    resolveD d v = DeferredState.resolved w := by
  subst hd; rfl

theorem storeResolve_resolved {ds : Nat → DeferredState} {j : Nat}
    {w : JsValue} (hs : ds j = DeferredState.resolved w) (i : Nat)
    (v : JsValue) : storeResolve ds i v j = DeferredState.resolved w := by
  by_cases hji : j = i
  · subst hji; rw [storeResolve_apply_self, hs]; rfl
  · rw [storeResolve_apply_ne hji, hs]

theorem storeReject_resolved {ds : Nat → DeferredState} {j : Nat}
    {w : JsValue} (hs : ds j = DeferredState.resolved w) (i : Nat)
    (e : String) : storeReject ds i e j = DeferredState.resolved w := by
  by_cases hji : j = i
  · subst hji; simp [storeReject, storeSet, hs, rejectD]
  · simp [storeReject, storeSet, hji, hs]

theorem runHandler_resolved {ds : Nat → DeferredState} {j : Nat}
    {w : JsValue} (hs : ds j = DeferredState.resolved w) (did : Nat)
    (h : HandlerSpec) (m : JsmsMessage) :
    runHandler ds did h m j = DeferredState.resolved w := by
  cases h with
  | resolves v => exact storeResolve_resolved hs did (JsValue.obj v)
  | doesNothing => exact storeResolve_resolved hs did (JsValue.msg m)
  | throws e => exact storeReject_resolved hs did e

theorem storeResolve_settled {ds : Nat → DeferredState} {j : Nat}
    (hs : ds j ≠ DeferredState.pending) (i : Nat) (v : JsValue) :
    storeResolve ds i v j ≠ DeferredState.pending := by
  by_cases hji : j = i
  · subst hji; rw [storeResolve_apply_self]
    cases hd : ds j with
    | pending => exact absurd hd hs
    | resolved w => simp [resolveD]
    | rejected e => simp [resolveD]
  · rw [storeResolve_apply_ne hji]; exact hs

theorem storeReject_settled {ds : Nat → DeferredState} {j : Nat}
    (hs : ds j ≠ DeferredState.pending) (i : Nat) (e : String) :
    storeReject ds i e j ≠ DeferredState.pending := by
  by_cases hji : j = i
  · subst hji
    cases hd : ds j with
    | pending => exact absurd hd hs
    | resolved w => simp [storeReject, storeSet, hd, rejectD]
    | rejected e2 => simp [storeReject, storeSet, hd, rejectD]
  · simp [storeReject, storeSet, hji]; exact hs

theorem runHandler_settled {ds : Nat → DeferredState} {j : Nat}
    (hs : ds j ≠ DeferredState.pending) (did : Nat) (h : HandlerSpec)
    (m : JsmsMessage) : runHandler ds did h m j ≠ DeferredState.pending := by
  cases h with
  | resolves v => exact storeResolve_settled hs did (JsValue.obj v)
  | doesNothing => exact storeResolve_settled hs did (JsValue.msg m)
  | throws e => exact storeReject_settled hs did e

theorem send_fst (s : QueueState) (m : JsmsMessage) :
    (send s m).1 = s.nextId := by
  rcases hcase : s.pendingWaiters with _ | ⟨⟨wid, hh⟩, rest⟩ <;>
    simp [send, onMessage, hcase]

theorem receive_fst (s : QueueState) (h : HandlerSpec) :
    (receive s h).1 = s.nextId := by
  rcases hcase : dropExpired s.pendingMessages s.now with _ | ⟨⟨did, m⟩, rest⟩ <;>
    simp [receive, hcase]

theorem send_nextId (s : QueueState) (m : JsmsMessage) :
    (send s m).2.nextId = s.nextId + 1 := by
  rcases hcase : s.pendingWaiters with _ | ⟨⟨wid, hh⟩, rest⟩ <;>
    simp [send, onMessage, hcase]

/-- C3: every `JsQueueSender.send(message)` invokes the consumer's
`onMessage` delivery hook exactly once with the message; the hook reports
"not handled" exactly when no waiter is registered; a declined message is
enqueued on the pending buffer rather than lost; and when a consumer is
already waiting, the waiting receive's deferred is resolved with the
message and no buffering occurs. -/
theorem send_invokes_hook_once_buffers_iff_declined (s : QueueState)
    (m : JsmsMessage)
    (hw : ∀ p ∈ s.pendingWaiters,
      p.1 < s.nextId ∧ s.deferreds p.1 = DeferredState.pending) :
    (send s m).2.hookLog = s.hookLog ++ [m]
    ∧ (∀ t : QueueState, ∀ did : Nat,
        ((onMessage t m did).1 = false ↔ t.pendingWaiters = []))
    ∧ (s.pendingWaiters = [] →
        (send s m).2.pendingMessages = s.pendingMessages ++ [(s.nextId, m)])
    ∧ (∀ wid hh rest, s.pendingWaiters = (wid, hh) :: rest →
        (send s m).2.pendingMessages = s.pendingMessages
        ∧ (send s m).2.deferreds wid = DeferredState.resolved (JsValue.msg m)
        ∧ (send s m).2.pendingWaiters = rest) := by
  refine ⟨?_, ?_, ?_, ?_⟩
  · rcases hcase : s.pendingWaiters with _ | ⟨⟨wid, hh⟩, rest⟩ <;>
      simp [send, onMessage, hcase]
  · intro t did
    rcases hcase : t.pendingWaiters with _ | ⟨⟨wid, hh⟩, rest⟩ <;>
      simp [onMessage, hcase]
  · intro hnil
    simp [send, onMessage, hnil]
  · intro wid hh rest hcons
    have hmem : (wid, hh) ∈ s.pendingWaiters := by rw [hcons]; exact List.mem_cons_self _ _
    have hwid := hw _ hmem
    have hne : wid ≠ s.nextId := Nat.ne_of_lt hwid.1
    refine ⟨?_, ?_, ?_⟩
    · simp [send, onMessage, hcons]
    · simp only [send, onMessage, hcons, if_true]
      rw [runHandler_apply_ne hne, storeResolve_apply_self, hwid.2]
      rfl
    · simp [send, onMessage, hcons]

theorem send_invokes_hook_once_buffers_iff_declined_witness :
    (∀ p ∈ (receive initialState HandlerSpec.doesNothing).2.pendingWaiters,
      p.1 < (receive initialState HandlerSpec.doesNothing).2.nextId
      ∧ (receive initialState HandlerSpec.doesNothing).2.deferreds p.1
          = DeferredState.pending)
    ∧ ((send (receive initialState HandlerSpec.doesNothing).2
          (createMessage "/q" (some [("test", "foo")]) none 0)).2.hookLog
        = (receive initialState HandlerSpec.doesNothing).2.hookLog
          ++ [createMessage "/q" (some [("test", "foo")]) none 0]) :=
  ⟨by decide,
    (send_invokes_hook_once_buffers_iff_declined
      (receive initialState HandlerSpec.doesNothing).2
      (createMessage "/q" (some [("test", "foo")]) none 0) (by decide)).1⟩

/-- C6: for a send whose message reaches a consumer handler — whether by
direct dispatch to an already-registered waiter or by a later receive
consuming the buffered message — a normally-completing handler resolves
the producer's deferred with its return value (or with the message itself
when it yields nothing explicit), and a throwing handler rejects the
producer's deferred with the thrown error; the engine itself never
propagates the throw (`send` and `receive` are total). -/
theorem handler_outcome_propagates_to_producer (m : JsmsMessage)
    (h : HandlerSpec) :
    (send (receive initialState h).2 m).2.deferreds
        ((send (receive initialState h).2 m).1)
      = handlerOutcome h m
    ∧ (isExpired m 0 = false →
        (receive (send initialState m).2 h).2.deferreds
            ((send initialState m).1)
          = handlerOutcome h m) := by
  constructor
  · cases h <;>
      simp [receive, send, onMessage, runHandler, handlerOutcome,
        storeResolve, storeReject, storeSet, resolveD, rejectD,
        initialState, dropExpired]
  · intro hlive
    cases h <;>
      simp [receive, send, onMessage, runHandler, handlerOutcome,
        storeResolve, storeReject, storeSet, resolveD, rejectD,
        initialState, dropExpired, hlive]

theorem handler_outcome_propagates_to_producer_witness :
    (receive (send initialState
        (createMessage "/q" (some [("test", "foo")]) none 0)).2
        (HandlerSpec.throws "boom")).2.deferreds
        ((send initialState
          (createMessage "/q" (some [("test", "foo")]) none 0)).1)
      = handlerOutcome (HandlerSpec.throws "boom")
          (createMessage "/q" (some [("test", "foo")]) none 0) :=
  (handler_outcome_propagates_to_producer
    (createMessage "/q" (some [("test", "foo")]) none 0)
    (HandlerSpec.throws "boom")).2 (by decide)

/-- C8: on the buffered path of `send` (no ready waiter) the message is
appended to `pendingMessages` together with the producer's freshly created
deferred, that same deferred identifier is returned to the producer, the
deferred is still pending right after the send, and it settles per the
handler's outcome once a later receive consumes the message. -/
theorem buffered_send_stores_and_returns_same_deferred (s : QueueState)
    (m : JsmsMessage) (h : HandlerSpec)
    (hw : s.pendingWaiters = [])
    (hfresh : s.deferreds s.nextId = DeferredState.pending) :
    (send s m).1 = s.nextId
    ∧ (send s m).2.pendingMessages = s.pendingMessages ++ [(s.nextId, m)]
    ∧ (send s m).2.deferreds s.nextId = DeferredState.pending
    ∧ (s.pendingMessages = [] → isExpired m s.now = false →
        (receive (send s m).2 h).2.deferreds s.nextId = handlerOutcome h m) := by
  refine ⟨send_fst s m, ?_, ?_, ?_⟩
  · simp [send, onMessage, hw]
  · simp [send, onMessage, hw]; exact hfresh
  · intro hmsgs hlive
    have hne : s.nextId ≠ s.nextId + 1 := by omega
    simp only [send, onMessage, hw]
    simp [receive, dropExpired, hmsgs, hlive]
    rw [runHandler_apply_self]
    rw [storeResolve_apply_ne hne]
    exact hfresh

theorem buffered_send_stores_and_returns_same_deferred_witness :
    initialState.pendingWaiters = []
    ∧ initialState.deferreds initialState.nextId = DeferredState.pending
    ∧ (send initialState
          (createMessage "/q" (some [("test", "foo")]) none 0)).1
        = initialState.nextId :=
  ⟨rfl, rfl,
    (buffered_send_stores_and_returns_same_deferred initialState
      (createMessage "/q" (some [("test", "foo")]) none 0)
      HandlerSpec.doesNothing (by decide) (by decide)).1⟩

/-- C10: every `JsQueueSender.send` call allocates a fresh deferred,
returns exactly that deferred's identifier, and distinct send calls never
share a deferred; on the direct-dispatch path the settlement performed by
the consumer's handler is exactly what the producer's returned deferred
holds afterwards. -/
theorem send_allocates_fresh_deferred_per_call (s : QueueState)
    (m m2 : JsmsMessage)
    (hfresh : s.deferreds s.nextId = DeferredState.pending)
    (hw : ∀ p ∈ s.pendingWaiters, p.1 < s.nextId) :
    (send s m).1 = s.nextId
    ∧ (send s m).2.nextId = s.nextId + 1
    ∧ (send (send s m).2 m2).1 = s.nextId + 1
    ∧ (send s m).1 ≠ (send (send s m).2 m2).1
    ∧ (∀ wid hh rest, s.pendingWaiters = (wid, hh) :: rest →
        (send s m).2.deferreds ((send s m).1) = handlerOutcome hh m) := by
  refine ⟨send_fst s m, send_nextId s m, ?_, ?_, ?_⟩
  · rw [send_fst, send_nextId]
  · rw [send_fst, send_fst, send_nextId]; omega
  · intro wid hh rest hcons
    have hmem : (wid, hh) ∈ s.pendingWaiters := by rw [hcons]; exact List.mem_cons_self _ _
    have hne : wid ≠ s.nextId := Nat.ne_of_lt (hw _ hmem)
    rw [send_fst]
    simp only [send, onMessage, hcons, if_true]
    rw [runHandler_apply_self]
    rw [storeResolve_apply_ne (fun hh2 => hne hh2.symm)]
    exact hfresh

theorem send_allocates_fresh_deferred_per_call_witness :
    initialState.deferreds initialState.nextId = DeferredState.pending
    ∧ (send initialState
          (createMessage "/q" (some [("test", "foo")]) none 0)).1
        ≠ (send (send initialState
            (createMessage "/q" (some [("test", "foo")]) none 0)).2
            (createMessage "/q" (some [("test", "bar")]) none 0)).1 :=
  ⟨rfl,
    (send_allocates_fresh_deferred_per_call initialState
      (createMessage "/q" (some [("test", "foo")]) none 0)
      (createMessage "/q" (some [("test", "bar")]) none 0)
      (by decide) (by decide)).2.2.2.1⟩

/-- C9: a `send(name)` with no body yields a delivered message whose body
is the empty object: with a waiter already registered, sending the message
built from no body resolves that waiter with the message, and the
message's body is `{}`. -/
theorem send_default_body (name : String) (ttl : Option Nat)
    (h : HandlerSpec) :
    (send (receive initialState h).2 (createMessage name none ttl 0)).2.deferreds
        ((receive initialState h).1)
      = DeferredState.resolved (JsValue.msg (createMessage name none ttl 0))
    ∧ (createMessage name none ttl 0).body = emptyBody := by
  constructor
  · simp [receive, send, onMessage, runHandler, storeResolve, storeReject,
      storeSet, resolveD, rejectD, initialState, dropExpired, createMessage]
    cases h <;> simp [runHandler, storeResolve, storeReject, storeSet,
      resolveD, rejectD]
  · rfl

/-- C5: a buffered message whose TTL has passed is never handed to a
waiter — a `receive` issued more than `T` after a send with TTL `T` leaves
the fresh waiter pending, silently discards the message (buffer becomes
empty) and reports no error to the producer (its deferred stays pending),
while a `receive` issued before `T` is resolved with the message. -/
theorem expired_message_never_delivered (name : String) (bd : Body)
    (t0 T d1 d2 : Nat) (hexp : T < d1) (hlive : d2 < T) :
    (receive (advance (send (advance initialState t0)
          (createMessage name (some bd) (some T) t0)).2 d1)
        HandlerSpec.doesNothing).2.deferreds
        ((receive (advance (send (advance initialState t0)
          (createMessage name (some bd) (some T) t0)).2 d1)
        HandlerSpec.doesNothing).1)
      = DeferredState.pending
    ∧ (receive (advance (send (advance initialState t0)
          (createMessage name (some bd) (some T) t0)).2 d1)
        HandlerSpec.doesNothing).2.pendingMessages = []
    ∧ (receive (advance (send (advance initialState t0)
          (createMessage name (some bd) (some T) t0)).2 d1)
        HandlerSpec.doesNothing).2.deferreds
        ((send (advance initialState t0)
          (createMessage name (some bd) (some T) t0)).1)
      = DeferredState.pending
    ∧ (receive (advance (send (advance initialState t0)
          (createMessage name (some bd) (some T) t0)).2 d2)
        HandlerSpec.doesNothing).2.deferreds
        ((receive (advance (send (advance initialState t0)
          (createMessage name (some bd) (some T) t0)).2 d2)
        HandlerSpec.doesNothing).1)
      = DeferredState.resolved
          (JsValue.msg (createMessage name (some bd) (some T) t0)) := by
  have hdead : isExpired (createMessage name (some bd) (some T) t0)
      (t0 + d1) = true := by
    simp [isExpired, createMessage]; omega
  have halive : isExpired (createMessage name (some bd) (some T) t0)
      (t0 + d2) = false := by
    simp [isExpired, createMessage]; omega
  refine ⟨?_, ?_, ?_, ?_⟩ <;>
    simp [receive, advance, send, onMessage, initialState, dropExpired,
      hdead, halive, runHandler, storeResolve, storeReject, storeSet,
      resolveD, rejectD]

theorem expired_message_never_delivered_witness :
    (receive (advance (send (advance initialState 5)
          (createMessage "/q" (some [("test", "foo")]) (some 100) 5)).2 150)
        HandlerSpec.doesNothing).2.pendingMessages = [] :=
  (expired_message_never_delivered "/q" [("test", "foo")] 5 100 150 1
    (by decide) (by decide)).2.1

theorem step_one_sided {s : QueueState}
    (hs : s.pendingMessages = [] ∨ s.pendingWaiters = []) (op : Op) :
    (step s op).pendingMessages = [] ∨ (step s op).pendingWaiters = [] := by
  cases op with
  | opSend m =>
    rcases hcase : s.pendingWaiters with _ | ⟨⟨wid, hh⟩, rest⟩
    · right; simp [step, send, onMessage, hcase]
    · left
      have hmsgs : s.pendingMessages = [] := by
        rcases hs with h | h
        · exact h
        · rw [hcase] at h; cases h
      simp [step, send, onMessage, hcase, hmsgs]
  | opRecv h =>
    rcases hcase : dropExpired s.pendingMessages s.now with _ | ⟨⟨did, m⟩, rest⟩
    · left; simp [step, receive, hcase]
    · right
      have hne : s.pendingMessages ≠ [] := by
        intro hnil; rw [hnil] at hcase; simp [dropExpired] at hcase
      have hwait : s.pendingWaiters = [] := by
        rcases hs with h | h
        · exact absurd h hne
        · exact h
      simp [step, receive, hcase, hwait]
  | opAdvance d =>
    simpa [step, advance] using hs

/-- C4: in every state reachable from the empty queue by any sequence of
send, receive and clock-advance operations, `pendingMessages` and
`pendingWaiters` are never both non-empty: each call matches immediately
or buffers on exactly one side. -/
theorem buffers_never_both_nonempty (ops : List Op) :
    (run initialState ops).pendingMessages = []
    ∨ (run initialState ops).pendingWaiters = [] := by
  suffices h : ∀ (l : List Op) (s : QueueState),
      (s.pendingMessages = [] ∨ s.pendingWaiters = []) →
      ((run s l).pendingMessages = [] ∨ (run s l).pendingWaiters = []) by
    exact h ops initialState (Or.inl rfl)
  intro l
  induction l with
  | nil => intro s hs; exact hs
  | cons op rest ih =>
    intro s hs
    show (run (step s op) rest).pendingMessages = []
      ∨ (run (step s op) rest).pendingWaiters = []
    exact ih (step s op) (step_one_sided hs op)

theorem tagged_length (n : Nat) (l : List α) :
    (tagged n l).length = l.length := by
  induction l generalizing n with
  | nil => rfl
  | cons a rest ih => simp [tagged, ih]

theorem tagged_map_snd (n : Nat) (l : List α) :
    (tagged n l).map Prod.snd = l := by
  induction l generalizing n with
  | nil => rfl
  | cons a rest ih => simp [tagged, ih]

theorem mem_tagged {p : Nat × α} {l : List α} {n : Nat}
    (hp : p ∈ tagged n l) : n ≤ p.1 ∧ p.1 < n + l.length ∧ p.2 ∈ l := by
  induction l generalizing n with
  | nil => cases hp
  | cons a rest ih =>
    rcases List.mem_cons.mp hp with heq | htail
    · subst heq; simp
    · obtain ⟨h1, h2, h3⟩ := ih htail
      refine ⟨by omega, by simp; omega, List.mem_cons_of_mem _ h3⟩

theorem send_no_waiter_fields (s : QueueState) (m : JsmsMessage)
    (hw : s.pendingWaiters = []) :
    (send s m).2.nextId = s.nextId + 1
    ∧ (send s m).2.deferreds = s.deferreds
    ∧ (send s m).2.pendingWaiters = []
    ∧ (send s m).2.pendingMessages = s.pendingMessages ++ [(s.nextId, m)]
    ∧ (send s m).2.now = s.now := by
  refine ⟨?_, ?_, ?_, ?_, ?_⟩ <;> simp [send, onMessage, hw]

theorem sendAll_no_waiters (ms : List JsmsMessage) (s : QueueState)
    (hw : s.pendingWaiters = []) :
    (sendAll s ms).nextId = s.nextId + ms.length
    ∧ (sendAll s ms).deferreds = s.deferreds
    ∧ (sendAll s ms).pendingWaiters = []
    ∧ (sendAll s ms).pendingMessages = s.pendingMessages ++ tagged s.nextId ms
    ∧ (sendAll s ms).now = s.now := by
  induction ms generalizing s with
  | nil => simp [sendAll, tagged, hw]
  | cons m rest ih =>
    obtain ⟨f1, f2, f3, f4, f5⟩ := send_no_waiter_fields s m hw
    have hAll : sendAll s (m :: rest) = sendAll (send s m).2 rest := rfl
    obtain ⟨g1, g2, g3, g4, g5⟩ := ih (send s m).2 f3
    rw [hAll]
    refine ⟨?_, ?_, g3, ?_, ?_⟩
    · rw [g1, f1]; simp [Nat.add_assoc, Nat.add_comm 1 rest.length]
    · rw [g2, f2]
    · rw [g4, f4, f1, List.append_assoc]
      rfl
    · rw [g5, f5]

theorem receive_live_head_fields (s : QueueState) (h : HandlerSpec)
    (did : Nat) (m : JsmsMessage) (rest : List (Nat × JsmsMessage))
    (hpms : s.pendingMessages = (did, m) :: rest)
    (hlive : isExpired m s.now = false) :
    (receive s h).1 = s.nextId
    ∧ (receive s h).2.nextId = s.nextId + 1
    ∧ (receive s h).2.pendingMessages = rest
    ∧ (receive s h).2.pendingWaiters = s.pendingWaiters
    ∧ (receive s h).2.now = s.now
    ∧ (receive s h).2.deferreds
        = runHandler (storeResolve s.deferreds s.nextId (JsValue.msg m))
            did h m := by
  have hdrop : dropExpired s.pendingMessages s.now = (did, m) :: rest := by
    rw [hpms]; simp [dropExpired, hlive]
  refine ⟨?_, ?_, ?_, ?_, ?_, ?_⟩ <;> simp [receive, hdrop]

theorem receiveValues_of_buffered (pms : List (Nat × JsmsMessage))
    (s : QueueState) (hpms : s.pendingMessages = pms)
    (hall : ∀ p ∈ pms, isExpired p.2 s.now = false ∧ p.1 < s.nextId)
    (hfresh : ∀ i, s.nextId ≤ i → s.deferreds i = DeferredState.pending) :
    receiveValues s pms.length
      = pms.map (fun p => DeferredState.resolved (JsValue.msg p.2)) := by
  induction pms generalizing s with
  | nil => simp [receiveValues]
  | cons p rest ih =>
    obtain ⟨did, m⟩ := p
    have hhead := hall _ (List.mem_cons_self _ _)
    obtain ⟨f1, f2, f3, f4, f5, f6⟩ :=
      receive_live_head_fields s HandlerSpec.doesNothing did m rest hpms hhead.1
    have hpend : s.deferreds s.nextId = DeferredState.pending :=
      hfresh _ (Nat.le_refl _)
    have hne : s.nextId ≠ did := fun hh => by
      rw [hh] at hhead; exact absurd hhead.2 (by omega)
    have hval : (receive s HandlerSpec.doesNothing).2.deferreds
        ((receive s HandlerSpec.doesNothing).1)
        = DeferredState.resolved (JsValue.msg m) := by
      rw [f1, f6, runHandler_apply_ne hne, storeResolve_apply_self, hpend]
      rfl
    show (receive s HandlerSpec.doesNothing).2.deferreds
        ((receive s HandlerSpec.doesNothing).1)
      :: receiveValues (receive s HandlerSpec.doesNothing).2 rest.length
      = DeferredState.resolved (JsValue.msg m)
      :: rest.map (fun p => DeferredState.resolved (JsValue.msg p.2))
    rw [hval]
    congr 1
    apply ih
    · exact f3
    · intro q hq
      have := hall q (List.mem_cons_of_mem _ hq)
      rw [f5, f2]
      exact ⟨this.1, by omega⟩
    · intro i hi
      rw [f2] at hi
      rw [f6, runHandler_apply_ne (by omega),
        storeResolve_apply_ne (by omega)]
      exact hfresh i (by omega)

/-- C1: messages sent before any receive are delivered in send order — after
sending `m1 … mN` on the empty queue, the `N` subsequent receives are
resolved, in order, with `m1 … mN` (stated for messages that have not
expired, since expired messages are silently discarded by design). -/
theorem pending_messages_delivered_in_send_order (ms : List JsmsMessage)
    (hlive : ∀ m ∈ ms, isExpired m 0 = false) :
    receiveValues (sendAll initialState ms) ms.length
      = ms.map (fun m => DeferredState.resolved (JsValue.msg m)) := by
  obtain ⟨hn, hd, hw, hm, hnow⟩ := sendAll_no_waiters ms initialState rfl
  have hlen : ms.length = (tagged 0 ms).length := (tagged_length 0 ms).symm
  have hkey := receiveValues_of_buffered (tagged (0 : Nat) ms)
    (sendAll initialState ms) (by rw [hm]; rfl)
    (by
      intro p hp
      obtain ⟨h1, h2, h3⟩ := mem_tagged hp
      constructor
      · rw [hnow]; exact hlive _ h3
      · rw [hn]
        have h0 : initialState.nextId = 0 := rfl
        omega)
    (by intro i _; rw [hd]; rfl)
  rw [hlen, hkey]
  have : (tagged (0 : Nat) ms).map
      (fun p => DeferredState.resolved (JsValue.msg p.2))
      = ((tagged (0 : Nat) ms).map Prod.snd).map
          (fun m => DeferredState.resolved (JsValue.msg m)) := by
    rw [List.map_map]
    rfl
  rw [this, tagged_map_snd]

theorem pending_messages_delivered_in_send_order_witness :
    receiveValues (sendAll initialState
        [createMessage "/q" (some [("test", "1")]) none 0,
         createMessage "/q" (some [("test", "2")]) none 0,
         createMessage "/q" (some [("test", "3")]) none 0]) 3
      = [DeferredState.resolved
            (JsValue.msg (createMessage "/q" (some [("test", "1")]) none 0)),
         DeferredState.resolved
            (JsValue.msg (createMessage "/q" (some [("test", "2")]) none 0)),
         DeferredState.resolved
            (JsValue.msg (createMessage "/q" (some [("test", "3")]) none 0))] :=
  pending_messages_delivered_in_send_order
    [createMessage "/q" (some [("test", "1")]) none 0,
     createMessage "/q" (some [("test", "2")]) none 0,
     createMessage "/q" (some [("test", "3")]) none 0] (by decide)

theorem receive_no_live_message_fields (s : QueueState) (h : HandlerSpec)
    (hdrop : dropExpired s.pendingMessages s.now = []) :
    (receive s h).1 = s.nextId
    ∧ (receive s h).2.nextId = s.nextId + 1
    ∧ (receive s h).2.deferreds = s.deferreds
    ∧ (receive s h).2.pendingMessages = []
    ∧ (receive s h).2.pendingWaiters = s.pendingWaiters ++ [(s.nextId, h)]
    ∧ (receive s h).2.now = s.now := by
  refine ⟨?_, ?_, ?_, ?_, ?_, ?_⟩ <;> simp [receive, hdrop]

theorem receive_live_drop_fields (s : QueueState) (h : HandlerSpec)
    (did : Nat) (m : JsmsMessage) (rest : List (Nat × JsmsMessage))
    (hdrop : dropExpired s.pendingMessages s.now = (did, m) :: rest) :
    (receive s h).1 = s.nextId
    ∧ (receive s h).2.nextId = s.nextId + 1
    ∧ (receive s h).2.pendingMessages = rest
    ∧ (receive s h).2.pendingWaiters = s.pendingWaiters
    ∧ (receive s h).2.now = s.now
    ∧ (receive s h).2.deferreds
        = runHandler (storeResolve s.deferreds s.nextId (JsValue.msg m))
            did h m := by
  refine ⟨?_, ?_, ?_, ?_, ?_, ?_⟩ <;> simp [receive, hdrop]

theorem receiveAll_no_messages (hs : List HandlerSpec) (s : QueueState)
    (hm : s.pendingMessages = []) :
    (receiveAll s hs).nextId = s.nextId + hs.length
    ∧ (receiveAll s hs).deferreds = s.deferreds
    ∧ (receiveAll s hs).pendingMessages = []
    ∧ (receiveAll s hs).pendingWaiters
        = s.pendingWaiters ++ tagged s.nextId hs
    ∧ (receiveAll s hs).now = s.now := by
  induction hs generalizing s with
  | nil => simp [receiveAll, tagged, hm]
  | cons h rest ih =>
    have hdrop : dropExpired s.pendingMessages s.now = [] := by
      rw [hm]; rfl
    obtain ⟨f1, f2, f3, f4, f5, f6⟩ := receive_no_live_message_fields s h hdrop
    have hAll : receiveAll s (h :: rest) = receiveAll (receive s h).2 rest := rfl
    obtain ⟨g1, g2, g3, g4, g5⟩ := ih (receive s h).2 f4
    rw [hAll]
    refine ⟨?_, ?_, g3, ?_, ?_⟩
    · rw [g1, f2]; simp [Nat.add_assoc, Nat.add_comm 1 rest.length]
    · rw [g2, f3]
    · rw [g4, f5, f2, List.append_assoc]
      rfl
    · rw [g5, f6]

theorem send_direct_fields (s : QueueState) (m : JsmsMessage) (wid : Nat)
    (hh : HandlerSpec) (rest : List (Nat × HandlerSpec))
    (hcons : s.pendingWaiters = (wid, hh) :: rest) :
    (send s m).2.nextId = s.nextId + 1
    ∧ (send s m).2.pendingWaiters = rest
    ∧ (send s m).2.pendingMessages = s.pendingMessages
    ∧ (send s m).2.now = s.now
    ∧ (send s m).2.deferreds
        = runHandler (storeResolve s.deferreds wid (JsValue.msg m))
            s.nextId hh m := by
  refine ⟨?_, ?_, ?_, ?_, ?_⟩ <;> simp [send, onMessage, hcons]

theorem send_preserves_resolved {s : QueueState} {i : Nat} {v : JsValue}
    (hi : s.deferreds i = DeferredState.resolved v) (m : JsmsMessage) :
    (send s m).2.deferreds i = DeferredState.resolved v := by
  rcases hcase : s.pendingWaiters with _ | ⟨⟨wid, hh⟩, rest⟩
  · rw [(send_no_waiter_fields s m hcase).2.1]; exact hi
  · rw [(send_direct_fields s m wid hh rest hcase).2.2.2.2]
    exact runHandler_resolved (storeResolve_resolved hi _ _) _ _ _

theorem sendAll_preserves_resolved (ms : List JsmsMessage) {s : QueueState}
    {i : Nat} {v : JsValue} (hi : s.deferreds i = DeferredState.resolved v) :
    (sendAll s ms).deferreds i = DeferredState.resolved v := by
  induction ms generalizing s with
  | nil => exact hi
  | cons m rest ih => exact ih (send_preserves_resolved hi m)

theorem tagged_pairwise_lt (n : Nat) (l : List α) :
    (tagged n l).Pairwise (fun a b => a.1 < b.1) := by
  induction l generalizing n with
  | nil => exact List.Pairwise.nil
  | cons a rest ih =>
    exact List.Pairwise.cons
      (fun b hb => by have := (mem_tagged hb).1; omega) (ih (n + 1))

theorem sendAll_resolves_zip (ms : List JsmsMessage) (s : QueueState)
    (wl : List (Nat × HandlerSpec)) (hwl : s.pendingWaiters = wl)
    (hids : ∀ p ∈ wl, p.1 < s.nextId
      ∧ s.deferreds p.1 = DeferredState.pending)
    (hsorted : wl.Pairwise (fun a b => a.1 < b.1)) :
    ∀ q ∈ List.zip wl ms,
      (sendAll s ms).deferreds q.1.1
        = DeferredState.resolved (JsValue.msg q.2) := by
  induction ms generalizing s wl with
  | nil => intro q hq; rw [List.zip_nil_right] at hq; cases hq
  | cons m ms2 ih =>
    cases wl with
    | nil => intro q hq; cases hq
    | cons w wl2 =>
      obtain ⟨wid, hh⟩ := w
      obtain ⟨f1, f2, f3, f4, f5⟩ := send_direct_fields s m wid hh wl2 hwl
      have hwhead := hids _ (List.mem_cons_self _ _)
      have hne : wid ≠ s.nextId := Nat.ne_of_lt hwhead.1
      have hval : (send s m).2.deferreds wid
          = DeferredState.resolved (JsValue.msg m) := by
        rw [f5, runHandler_apply_ne hne, storeResolve_apply_self, hwhead.2]
        rfl
      intro q hq
      rcases List.mem_cons.mp hq with heq | htail
      · subst heq
        exact sendAll_preserves_resolved ms2 hval
      · have hAll : sendAll s (m :: ms2) = sendAll (send s m).2 ms2 := rfl
        rw [hAll] at *
        apply ih (send s m).2 wl2 f2 ?_
          ((List.pairwise_cons.mp hsorted).2) q htail
        intro p hp
        have hpid := hids p (List.mem_cons_of_mem _ hp)
        have hplt : p.1 < wid ∨ wid < p.1 := by
          right
          exact (List.pairwise_cons.mp hsorted).1 p hp
        constructor
        · rw [f1]; omega
        · rw [f5, runHandler_apply_ne (by omega),
            storeResolve_apply_ne (by omega)]
          exact hpid.2

theorem mem_of_mem_dropExpired {p : Nat × JsmsMessage}
    {pms : List (Nat × JsmsMessage)} {now : Nat}
    (hp : p ∈ dropExpired pms now) : p ∈ pms := by
  induction pms with
  | nil => cases hp
  | cons q rest ih =>
    obtain ⟨did, m⟩ := q
    cases hexp : isExpired m now with
    | true =>
      simp only [dropExpired, hexp, if_true] at hp
      exact List.mem_cons_of_mem _ (ih hp)
    | false =>
      simp only [dropExpired, hexp] at hp
      simpa using hp

theorem drop_eq_cons_of_lt {l : List α} {k : Nat} (hk : k < l.length) :
    ∃ a, l.drop k = a :: l.drop (k + 1) := by
  induction l generalizing k with
  | nil => simp at hk
  | cons b t ih =>
    cases k with
    | zero => exact ⟨b, rfl⟩
    | succ n =>
      have hn : n < t.length := by simpa using hk
      obtain ⟨a, ha⟩ := ih hn
      exact ⟨a, ha⟩

/-- Invariant used for the waiter-ordering claim: among the original block
of waiters (identifiers `0 … hs.length - 1`, registered before anything
else), exactly the first `k` are settled; the still-pending ones sit, in
registration order, at the front of `pendingWaiters`; and every identifier
in either buffer that is not part of the original block is at least
`hs.length`. -/
def WaiterOrderInv (hs : List HandlerSpec) (k : Nat) (s : QueueState) :
    Prop :=
  k ≤ hs.length
  ∧ hs.length ≤ s.nextId
  ∧ (∀ i, i < hs.length →
      ((s.deferreds i ≠ DeferredState.pending) ↔ i < k))
  ∧ (∃ rest, s.pendingWaiters = tagged k (hs.drop k) ++ rest
      ∧ ∀ p ∈ rest, hs.length ≤ p.1)
  ∧ (∀ p ∈ s.pendingMessages, hs.length ≤ p.1)
  ∧ (k < hs.length → s.pendingMessages = [])

theorem waiterOrderInv_step {hs : List HandlerSpec} {k : Nat}
    {s : QueueState} (hinv : WaiterOrderInv hs k s) (op : Op) :
    ∃ k2, WaiterOrderInv hs k2 (step s op) := by
  obtain ⟨hk, hnext, hiff, ⟨rest, hwl, hrest⟩, hmsg, hone⟩ := hinv
  cases op with
  | opAdvance d =>
    exact ⟨k, hk, hnext, hiff, ⟨rest, hwl, hrest⟩, hmsg, hone⟩
  | opSend m =>
    simp only [step]
    by_cases hklt : k < hs.length
    · obtain ⟨a, ha⟩ := drop_eq_cons_of_lt hklt
      have hwl2 : s.pendingWaiters
          = (k, a) :: (tagged (k + 1) (hs.drop (k + 1)) ++ rest) := by
        rw [hwl, ha]; rfl
      obtain ⟨f1, f2, f3, f4, f5⟩ := send_direct_fields s m k a _ hwl2
      have hkpend : s.deferreds k = DeferredState.pending := by
        by_contra hcon
        have := (hiff k hklt).mp hcon
        omega
      refine ⟨k + 1, by omega, by rw [f1]; omega, ?_, ?_, ?_, ?_⟩
      · intro i hi
        rw [f5]
        by_cases hik : i = k
        · subst hik
          rw [runHandler_apply_ne (by omega), storeResolve_apply_self,
            hkpend]
          simp [resolveD]
        · rw [runHandler_apply_ne (by omega), storeResolve_apply_ne hik,
            hiff i hi]
          omega
      · exact ⟨rest, by rw [f2], hrest⟩
      · intro p hp
        rw [f3] at hp
        exact hmsg p hp
      · intro _
        rw [f3]
        exact hone hklt
    · have hkN : k = hs.length := by omega
      subst hkN
      have hdropN : hs.drop hs.length = [] := List.drop_length hs
      have hwlr : s.pendingWaiters = rest := by
        rw [hwl, hdropN]; rfl
      cases hr : rest with
      | nil =>
        have hwnil : s.pendingWaiters = [] := by rw [hwlr, hr]
        obtain ⟨f1, f2, f3, f4, f5⟩ := send_no_waiter_fields s m hwnil
        refine ⟨hs.length, Nat.le_refl _, by rw [f1]; omega, ?_, ?_, ?_,
          by omega⟩
        · intro i hi
          rw [f2]
          exact hiff i hi
        · refine ⟨[], ?_, by intro p hp; cases hp⟩
          rw [f3, hdropN]; rfl
        · intro p hp
          rw [f4] at hp
          rcases List.mem_append.mp hp with h1 | h1
          · exact hmsg p h1
          · have : p = (s.nextId, m) := by simpa using h1
            rw [this]
            exact hnext
      | cons w rest2 =>
        obtain ⟨wid, hh⟩ := w
        have hwcons : s.pendingWaiters = (wid, hh) :: rest2 := by
          rw [hwlr, hr]
        obtain ⟨f1, f2, f3, f4, f5⟩ := send_direct_fields s m wid hh rest2 hwcons
        have hwidN : hs.length ≤ wid :=
          hrest _ (by rw [hr]; exact List.mem_cons_self _ _)
        refine ⟨hs.length, Nat.le_refl _, by rw [f1]; omega, ?_, ?_, ?_,
          by omega⟩
        · intro i hi
          rw [f5, runHandler_apply_ne (by omega),
            storeResolve_apply_ne (by omega)]
          exact hiff i hi
        · refine ⟨rest2, ?_, ?_⟩
          · rw [f2, hdropN]; rfl
          · intro p hp
            exact hrest p (by rw [hr]; exact List.mem_cons_of_mem _ hp)
        · intro p hp
          rw [f3] at hp
          exact hmsg p hp
  | opRecv h =>
    simp only [step]
    cases hdrop : dropExpired s.pendingMessages s.now with
    | nil =>
      obtain ⟨f1, f2, f3, f4, f5, f6⟩ := receive_no_live_message_fields s h hdrop
      refine ⟨k, hk, by rw [f2]; omega, ?_, ?_, ?_, ?_⟩
      · intro i hi
        rw [f3]
        exact hiff i hi
      · refine ⟨rest ++ [(s.nextId, h)], ?_, ?_⟩
        · rw [f5, hwl, List.append_assoc]
        · intro p hp
          rcases List.mem_append.mp hp with h1 | h1
          · exact hrest p h1
          · have : p = (s.nextId, h) := by simpa using h1
            rw [this]
            exact hnext
      · intro p hp
        rw [f4] at hp
        cases hp
      · intro _
        exact f4
    | cons q rest2 =>
      obtain ⟨did, m⟩ := q
      obtain ⟨f1, f2, f3, f4, f5, f6⟩ := receive_live_drop_fields s h did m rest2 hdrop
      have hdidN : hs.length ≤ did := by
        have hmem : (did, m) ∈ s.pendingMessages :=
          mem_of_mem_dropExpired (by rw [hdrop]; exact List.mem_cons_self _ _)
        exact hmsg _ hmem
      refine ⟨k, hk, by rw [f2]; omega, ?_, ?_, ?_, ?_⟩
      · intro i hi
        rw [f6, runHandler_apply_ne (by omega),
          storeResolve_apply_ne (by omega)]
        exact hiff i hi
      · exact ⟨rest, by rw [f4, hwl], hrest⟩
      · intro p hp
        rw [f3] at hp
        have hpd : p ∈ dropExpired s.pendingMessages s.now := by
          rw [hdrop]; exact List.mem_cons_of_mem _ hp
        exact hmsg p (mem_of_mem_dropExpired hpd)
      · intro hklt
        exfalso
        have hnil := hone hklt
        rw [hnil] at hdrop
        simp [dropExpired] at hdrop

theorem waiterOrderInv_run (ops : List Op) {hs : List HandlerSpec}
    {k : Nat} {s : QueueState} (hinv : WaiterOrderInv hs k s) :
    ∃ k2, WaiterOrderInv hs k2 (run s ops) := by
  induction ops generalizing k s with
  | nil => exact ⟨k, hinv⟩
  | cons op rest ih =>
    obtain ⟨k2, h2⟩ := waiterOrderInv_step hinv op
    exact ih h2

theorem waiterOrderInv_start (hs : List HandlerSpec) :
    WaiterOrderInv hs 0 (receiveAll initialState hs) := by
  obtain ⟨f1, f2, f3, f4, f5⟩ := receiveAll_no_messages hs initialState rfl
  have h0 : initialState.nextId = 0 := rfl
  refine ⟨Nat.zero_le _, by rw [f1]; omega, ?_, ?_, ?_, ?_⟩
  · intro i hi
    rw [f2]
    show (initialState.deferreds i ≠ DeferredState.pending) ↔ i < 0
    simp [initialState]
  · refine ⟨[], ?_, by intro p hp; cases hp⟩
    rw [f4]
    show initialState.pendingWaiters ++ tagged initialState.nextId hs
      = tagged 0 (hs.drop 0) ++ []
    simp [initialState]
  · intro p hp
    rw [f3] at hp
    cases hp
  · intro _
    exact f3

/-- C2: waiters registered before any send are satisfied in registration
order: after receives `r1 … rN` on the empty queue, sending `m1 … mK`
resolves the i-th registered waiter with the i-th message (first conjunct),
and under an arbitrary continuation of send/receive/advance operations —
in particular with further receives interleaved — the settled waiters of
the original block always form a downward-closed set of registration
positions, i.e. a later-registered waiter is never resolved before an
earlier one (second conjunct). -/
theorem waiters_resolved_in_registration_order (hs : List HandlerSpec)
    (ms : List JsmsMessage) (ops : List Op) :
    (∀ q ∈ List.zip (tagged 0 hs) ms,
        (sendAll (receiveAll initialState hs) ms).deferreds q.1.1
          = DeferredState.resolved (JsValue.msg q.2))
    ∧ (∀ i j : Nat, i < j → j < hs.length →
        (run (receiveAll initialState hs) ops).deferreds j
          ≠ DeferredState.pending →
        (run (receiveAll initialState hs) ops).deferreds i
          ≠ DeferredState.pending) := by
  constructor
  · obtain ⟨f1, f2, f3, f4, f5⟩ := receiveAll_no_messages hs initialState rfl
    have h0 : initialState.nextId = 0 := rfl
    apply sendAll_resolves_zip ms _ (tagged 0 hs) ?_ ?_ (tagged_pairwise_lt 0 hs)
    · rw [f4]
      rfl
    · intro p hp
      obtain ⟨h1, h2, h3⟩ := mem_tagged hp
      constructor
      · rw [f1]
        omega
      · rw [f2]
        rfl
  · intro i j hij hjN hj
    obtain ⟨k2, hk2, hnext2, hiff2, _, _, _⟩ :=
      waiterOrderInv_run ops (waiterOrderInv_start hs)
    have hj2 := (hiff2 j hjN).mp hj
    exact (hiff2 i (by omega)).mpr (by omega)

theorem waiters_resolved_in_registration_order_witness :
    (sendAll (receiveAll initialState
          [HandlerSpec.doesNothing, HandlerSpec.doesNothing])
        [createMessage "/q" (some [("test", "1")]) none 0,
         createMessage "/q" (some [("test", "2")]) none 0]).deferreds 0
      = DeferredState.resolved
          (JsValue.msg (createMessage "/q" (some [("test", "1")]) none 0))
    ∧ (run (receiveAll initialState
          [HandlerSpec.doesNothing, HandlerSpec.doesNothing])
        [Op.opSend (createMessage "/q" (some [("test", "1")]) none 0),
         Op.opSend (createMessage "/q" (some [("test", "2")]) none 0)]).deferreds 0
      ≠ DeferredState.pending :=
  ⟨(waiters_resolved_in_registration_order
      [HandlerSpec.doesNothing, HandlerSpec.doesNothing]
      [createMessage "/q" (some [("test", "1")]) none 0,
       createMessage "/q" (some [("test", "2")]) none 0]
      [Op.opSend (createMessage "/q" (some [("test", "1")]) none 0),
       Op.opSend (createMessage "/q" (some [("test", "2")]) none 0)]).1
      ((0, HandlerSpec.doesNothing),
        createMessage "/q" (some [("test", "1")]) none 0) (by decide),
   (waiters_resolved_in_registration_order
      [HandlerSpec.doesNothing, HandlerSpec.doesNothing]
      [createMessage "/q" (some [("test", "1")]) none 0,
       createMessage "/q" (some [("test", "2")]) none 0]
      [Op.opSend (createMessage "/q" (some [("test", "1")]) none 0),
       Op.opSend (createMessage "/q" (some [("test", "2")]) none 0)]).2
      0 1 (by decide) (by decide) (by decide)⟩

end Yams
